import Mathlib

/-!
# Audio-Effect-Processor: a shallow embedding of `sld.cpp`

The C++ program keeps 16-bit samples in `std::vector<Sint16>` buffers that two
effects (`PitchShift`, `Reverb`) rewrite in place, runs both effects inside the
SDL audio callback, and keeps frame statistics in a few globals.

Conventions of the embedding:

* a `std::vector<Sint16>` is a `List Int`; a value of type `Sint16` is an `Int`
  in `[-32768, 32767]`, and every arithmetic result that the C++ code stores
  back into a `Sint16` goes through `toSint16` (reduction modulo `2^16`);
* an in-place `for` loop over indices is a left fold of the loop body over the
  list of indices the loop visits, the buffer being the accumulator;
* `std::chrono::steady_clock` readings are integer nanosecond counts;
* `double` arithmetic is kept abstract (`DoubleOps`), so that nothing proved
  here depends on how a floating-point operation rounds.
-/

namespace AudioEffect

/-! ## Constants -/

/-- Constant `constexpr int AUDIO_SAMPLING_RATE = 44100;` -/
def AUDIO_SAMPLING_RATE : Nat := 44100

/-- Constant `constexpr int AUDIO_CHANNELS = 2;`, stereo. -/
def AUDIO_CHANNELS : Nat := 2

/-- Constant `constexpr int BUFFER_SIZE = 4096;`, the block size in frames. -/
def BUFFER_SIZE : Nat := 4096

/-! ## 16-bit samples -/

/-- Conversion of an `int` to `Sint16`, as done when the result of an `int`
computation is stored into a `Sint16` object: the value is reduced modulo
`2^16` into `[-32768, 32767]`. -/
def toSint16 (x : Int) : Int := (x + 32768) % 65536 - 32768

/-- The values a `Sint16` can hold. -/
def isSint16 (x : Int) : Prop := -32768 ≤ x ∧ x ≤ 32767

instance (x : Int) : Decidable (isSint16 x) := by
  unfold isSint16; infer_instance

/-! ## The effects -/

/-- Body of the loop of `PitchShift::applyEffect`: `buffer[i] = buffer[i / 2];` -/
def PitchShift.body (buffer : List Int) (i : Nat) : List Int :=
  buffer.set i (buffer.getD (i / 2) 0)

/-- Method `PitchShift::applyEffect`:
`for (size_t i = 0; i < buffer.size(); ++i) buffer[i] = buffer[i / 2];` -/
def PitchShift.applyEffect (buffer : List Int) : List Int :=
  (List.range' 0 buffer.length).foldl PitchShift.body buffer

/-- Body of the loop of `Reverb::applyEffect`:
`buffer[i] += buffer[i - delaySamples] / 2;`
Both operands are promoted to `int`, `/` truncates toward zero, and the sum is
converted back to `Sint16` by the compound assignment. -/
def Reverb.body (delaySamples : Nat) (buffer : List Int) (i : Nat) : List Int :=
  buffer.set i (toSint16 (buffer.getD i 0 + Int.tdiv (buffer.getD (i - delaySamples) 0) 2))

/-- The loop of `Reverb::applyEffect` for a given delay:
`for (size_t i = delaySamples; i < buffer.size(); ++i) ...` -/
def Reverb.loop (delaySamples : Nat) (buffer : List Int) : List Int :=
  (List.range' delaySamples (buffer.length - delaySamples)).foldl
    (Reverb.body delaySamples) buffer

/-- Constant `const size_t delaySamples = AUDIO_SAMPLING_RATE / 10;` of
`Reverb::applyEffect`, 100 ms of samples. -/
def Reverb.delaySamples : Nat := AUDIO_SAMPLING_RATE / 10

/-- Method `Reverb::applyEffect`. -/
def Reverb.applyEffect (buffer : List Int) : List Int :=
  Reverb.loop Reverb.delaySamples buffer

/-- The two concrete subclasses of `SoundEffect`. -/
inductive SoundEffect where
  | pitchShift
  | reverb
  deriving DecidableEq, Repr

/-- Virtual dispatch of `SoundEffect::applyEffect`. -/
def SoundEffect.applyEffect : SoundEffect → List Int → List Int
  | .pitchShift, buffer => PitchShift.applyEffect buffer
  | .reverb, buffer => Reverb.applyEffect buffer

/-- A finite sequence of effects applied one after the other to the same
buffer, the way `audioCallback` applies its two. -/
def applyChain (chain : List SoundEffect) (buffer : List Int) : List Int :=
  chain.foldl (fun buf e => e.applyEffect buf) buffer

/-! ## Globals, `double` arithmetic -/

/-- The operations on `double` that the program uses. -/
structure DoubleOps (F : Type) where
  /-- conversion of an integer to `double` -/
  ofInt : Int → F
  /-- seconds in a duration of `d` nanoseconds:
  `duration_cast<duration<double>>(d).count()` -/
  secondsOfNanos : Int → F
  /-- division `x / y` -/
  div : F → F → F
  /-- the literal `0.0` -/
  zero : F
  /-- the literal `1.0` -/
  one : F
  /-- comparison `x >= y` -/
  ge : F → F → Bool

/-- Exact arithmetic on rationals: the reading of `DoubleOps` in which no
operation rounds. -/
def exactOps : DoubleOps ℚ where
  ofInt := fun n => (n : ℚ)
  secondsOfNanos := fun n => (n : ℚ) / 1000000000
  div := fun x y => x / y
  zero := 0
  one := 1
  ge := fun x y => decide (y ≤ x)

/-- The global variables of the program (the mutex apart). -/
structure Globals (F : Type) where
  /-- input buffer `std::vector<Sint16> audioBufferIn` -/
  audioBufferIn : List Int
  /-- output buffer `std::vector<Sint16> audioBufferOut` -/
  audioBufferOut : List Int
  /-- time of the last report, `steady_clock::time_point lastFrameTime`, in nanoseconds -/
  lastFrameTime : Int
  /-- frames since the last report, `int frameCount` -/
  frameCount : Int
  /-- frame rate, `double fps` -/
  fps : F
  /-- duration of the last audio pass, `double lastProcessTime` -/
  lastProcessTime : F

/-- The globals as initialised at program start, `t0` being the clock reading
that initialises `lastFrameTime`. -/
def initialGlobals {F : Type} (D : DoubleOps F) (t0 : Int) : Globals F where
  audioBufferIn := []
  audioBufferOut := []
  lastFrameTime := t0
  frameCount := 0
  fps := D.zero
  lastProcessTime := D.zero

/-- The line `calculateFPS` prints: the two numbers it contains. -/
structure ReportLine (F : Type) where
  fps : F
  lastProcessTime : F

/-- Largest value of `int`. -/
def INT_MAX : Int := 2147483647

/-- Value of `duration_cast<std::chrono::milliseconds>(end - start).count()` for
two clock readings in nanoseconds: integer division by `10^6`, truncating
toward zero. -/
def durationCastMillis (start end_ : Int) : Int :=
  Int.tdiv (end_ - start) 1000000

/-- The SDL callback `audioCallback(userdata, stream, len)`.

`stream` is the memory at the `stream` pointer seen as an array of `Sint16`
(at least `len / 2` of them), `start` and `end_` are the two clock readings.
The result is the new globals and the contents of the memory at `stream`. -/
def audioCallback {F : Type} (D : DoubleOps F) (g : Globals F)
    (stream : List Int) (len : Nat) (start end_ : Int) : Globals F × List Int :=
  let sampleCount := len / 2
  -- audioBufferIn.resize(sampleCount); std::copy(samples, samples + sampleCount, ...)
  let audioBufferIn := stream.take sampleCount
  let audioBufferIn := PitchShift.applyEffect audioBufferIn
  let audioBufferIn := Reverb.applyEffect audioBufferIn
  -- std::copy(audioBufferIn.begin(), audioBufferIn.end(), samples)
  let stream := audioBufferIn ++ stream.drop audioBufferIn.length
  ({ g with audioBufferIn := audioBufferIn
            lastProcessTime := D.ofInt (durationCastMillis start end_) }, stream)

/-- Function `calculateFPS()`, `now` being the clock reading it takes. The result is
the new globals and the lines printed; `none` stands for the undefined
behaviour of `frameCount++` at `INT_MAX`. -/
def calculateFPS {F : Type} (D : DoubleOps F) (g : Globals F) (now : Int) :
    Option (Globals F × List (ReportLine F)) :=
  if g.frameCount < INT_MAX then
    let frameCount := g.frameCount + 1
    let seconds := D.secondsOfNanos (now - g.lastFrameTime)
    if D.ge seconds D.one then
      let fps := D.div (D.ofInt frameCount) seconds
      some ({ g with fps := fps, frameCount := 0, lastFrameTime := now },
            [{ fps := fps, lastProcessTime := g.lastProcessTime }])
    else
      some ({ g with frameCount := frameCount }, [])
  else
    none


/-! ## Auxiliary facts on lists -/

theorem getD_set_eq (l : List Int) (i j : Nat) (a : Int) :
    (l.set i a).getD j 0 = if i = j ∧ i < l.length then a else l.getD j 0 := by
  simp only [List.getD_eq_getElem?_getD, List.getElem?_set]
  by_cases hij : i = j
  · subst hij
    by_cases hi : i < l.length
    · simp [hi]
    · have h2 : l[i]? = none := List.getElem?_eq_none (by omega)
      simp [hi, h2]
  · simp [hij]

theorem getD_replicate_lt (n j : Nat) (a : Int) (h : j < n) :
    (List.replicate n a).getD j 0 = a := by
  simp [List.getD_eq_getElem?_getD, List.getElem?_replicate, h]

theorem eq_replicate_of_getD (l : List Int) (a : Int)
    (h : ∀ j, j < l.length → l.getD j 0 = a) : l = List.replicate l.length a := by
  apply List.ext_getElem (by simp)
  intro j h1 h2
  have := h j h1
  simp [List.getD_eq_getElem?_getD, List.getElem?_eq_getElem h1] at this
  simp [this]

theorem foldl_length_eq {α : Type} (f : List Int → α → List Int)
    (hf : ∀ b a, (f b a).length = b.length) (l : List α) (b : List Int) :
    (l.foldl f b).length = b.length := by
  induction l generalizing b with
  | nil => rfl
  | cons a l ih => simp [List.foldl_cons, ih, hf]

/-! ## PitchShift -/

theorem PitchShift.length_pitchBody (b : List Int) (i : Nat) :
    (PitchShift.body b i).length = b.length := by
  simp [PitchShift.body]

/-- Loop invariant of `PitchShift::applyEffect`: after the iterations
`0, ..., k-1` the first `k` samples hold the original first sample and the
others are untouched. -/
theorem PitchShift.pitchLoop_inv (B : List Int) (k : Nat) :
    ((List.range' 0 k).foldl PitchShift.body B).length = B.length ∧
    ∀ j, ((List.range' 0 k).foldl PitchShift.body B).getD j 0 =
      if j < k ∧ j < B.length then B.getD 0 0 else B.getD j 0 := by
  induction k with
  | zero => simp
  | succ k ih =>
    obtain ⟨hlen, hget⟩ := ih
    rw [List.range'_1_concat, List.foldl_append]
    simp only [List.foldl_cons, List.foldl_nil, Nat.zero_add]
    refine ⟨by rw [PitchShift.length_pitchBody, hlen], ?_⟩
    intro j
    rw [PitchShift.body, getD_set_eq, hlen, hget, hget]
    by_cases hkj : k = j
    · subst hkj
      by_cases hk : k < B.length
      · have h2 : (k / 2 < k ∧ k / 2 < B.length) ∨ k / 2 = 0 := by omega
        rcases h2 with h2 | h2
        · simp [hk, h2]
        · simp [hk, h2]
      · simp [hk]
    · have : (j < k + 1 ∧ j < B.length) ↔ (j < k ∧ j < B.length) := by omega
      simp [hkj, this]

theorem PitchShift.length_pitchShift (B : List Int) :
    (PitchShift.applyEffect B).length = B.length :=
  (PitchShift.pitchLoop_inv B B.length).1

theorem PitchShift.getD_applyEffect (B : List Int) (j : Nat) (h : j < B.length) :
    (PitchShift.applyEffect B).getD j 0 = B.getD 0 0 := by
  have h2 := (PitchShift.pitchLoop_inv B B.length).2 j
  rw [if_pos ⟨h, h⟩] at h2
  exact h2

theorem PitchShift.applyEffect_eq_replicate (B : List Int) :
    PitchShift.applyEffect B = List.replicate B.length (B.getD 0 0) := by
  have h := eq_replicate_of_getD (PitchShift.applyEffect B) (B.getD 0 0) (by
    intro j hj
    rw [PitchShift.length_pitchShift] at hj
    exact PitchShift.getD_applyEffect B j hj)
  rw [PitchShift.length_pitchShift] at h
  exact h

/-! ## Reverb -/

theorem Reverb.length_reverbBody (d : Nat) (b : List Int) (i : Nat) :
    (Reverb.body d b i).length = b.length := by
  simp [Reverb.body]

/-- Loop invariant of `Reverb::applyEffect` after the iterations
`d, ..., d+k-1`: samples outside that window are untouched, and each sample in
it is the wrapped sum of the original sample and half the current sample `d`
places before it. -/
theorem Reverb.reverbLoop_inv (d : Nat) (hd : 0 < d) (B : List Int) (k : Nat) :
    ((List.range' d k).foldl (Reverb.body d) B).length = B.length ∧
    (∀ j, j < d ∨ d + k ≤ j →
      ((List.range' d k).foldl (Reverb.body d) B).getD j 0 = B.getD j 0) ∧
    (∀ j, d ≤ j → j < d + k → j < B.length →
      ((List.range' d k).foldl (Reverb.body d) B).getD j 0 =
        toSint16 (B.getD j 0 +
          Int.tdiv (((List.range' d k).foldl (Reverb.body d) B).getD (j - d) 0) 2)) := by
  induction k with
  | zero =>
    refine ⟨by simp, by simp, ?_⟩
    intro j h1 h2
    omega
  | succ k ih =>
    obtain ⟨hlen, hout, hin⟩ := ih
    rw [List.range'_1_concat, List.foldl_append]
    simp only [List.foldl_cons, List.foldl_nil]
    generalize (List.range' d k).foldl (Reverb.body d) B = Fk at hlen hout hin
    refine ⟨by rw [Reverb.length_reverbBody, hlen], ?_, ?_⟩
    · intro j hj
      have hne : ¬ (d + k = j ∧ d + k < Fk.length) := by omega
      rw [Reverb.body, getD_set_eq, if_neg hne]
      exact hout j (by omega)
    · intro j h1 h2 h3
      have hne2 : ¬ (d + k = j - d ∧ d + k < Fk.length) := by omega
      rw [Reverb.body, getD_set_eq, getD_set_eq, if_neg hne2]
      by_cases hj : d + k = j
      · subst hj
        rw [if_pos ⟨rfl, by omega⟩, hout (d + k) (by omega)]
      · rw [if_neg (by omega)]
        exact hin j h1 (by omega) h3

theorem Reverb.length_loop (d : Nat) (B : List Int) :
    (Reverb.loop d B).length = B.length :=
  foldl_length_eq _ (Reverb.length_reverbBody d) _ B

/-- Samples before the delay are not touched by the loop. -/
theorem Reverb.getD_loop_lt (d : Nat) (hd : 0 < d) (B : List Int) (j : Nat) (h : j < d) :
    (Reverb.loop d B).getD j 0 = B.getD j 0 :=
  (Reverb.reverbLoop_inv d hd B (B.length - d)).2.1 j (Or.inl h)

/-- From the delay on, each sample is the wrapped sum of the input sample and
half the output sample one delay earlier. -/
theorem Reverb.getD_loop_ge (d : Nat) (hd : 0 < d) (B : List Int) (j : Nat)
    (h1 : d ≤ j) (h2 : j < B.length) :
    (Reverb.loop d B).getD j 0 =
      toSint16 (B.getD j 0 + Int.tdiv ((Reverb.loop d B).getD (j - d) 0) 2) :=
  (Reverb.reverbLoop_inv d hd B (B.length - d)).2.2 j h1 (by omega) h2

theorem Reverb.delaySamples_eq : Reverb.delaySamples = 4410 := by decide

theorem Reverb.length_reverb (B : List Int) :
    (Reverb.applyEffect B).length = B.length :=
  Reverb.length_loop _ B

theorem toSint16_of_isSint16 (x : Int) (h : isSint16 x) : toSint16 x = x := by
  unfold isSint16 at h
  unfold toSint16
  omega

theorem isSint16_toSint16 (x : Int) : isSint16 (toSint16 x) := by
  unfold isSint16 toSint16
  omega

theorem toSint16_sub_emod (x : Int) : (toSint16 x - x) % 65536 = 0 := by
  unfold toSint16
  omega

theorem Reverb.getD_applyEffect_lt (B : List Int) (j : Nat) (h : j < 4410) :
    (Reverb.applyEffect B).getD j 0 = B.getD j 0 :=
  Reverb.getD_loop_lt 4410 (by decide) B j h

theorem Reverb.getD_applyEffect_ge (B : List Int) (j : Nat) (h1 : 4410 ≤ j)
    (h2 : j < B.length) :
    (Reverb.applyEffect B).getD j 0 =
      toSint16 (B.getD j 0 + Int.tdiv ((Reverb.applyEffect B).getD (j - 4410) 0) 2) :=
  Reverb.getD_loop_ge 4410 (by decide) B j h1 h2

theorem Reverb.applyEffect_replicate_zero (n : Nat) :
    Reverb.applyEffect (List.replicate n 0) = List.replicate n 0 := by
  have key : ∀ j, j < n → (Reverb.applyEffect (List.replicate n 0)).getD j 0 = 0 := by
    intro j
    induction j using Nat.strong_induction_on with
    | _ j ih =>
      intro hj
      by_cases h : j < 4410
      · rw [Reverb.getD_applyEffect_lt _ j h, getD_replicate_lt n j 0 hj]
      · rw [Reverb.getD_applyEffect_ge _ j (by omega) (by simpa using hj),
          ih (j - 4410) (by omega) (by omega), getD_replicate_lt n j 0 hj]
        decide
  have h := eq_replicate_of_getD (Reverb.applyEffect (List.replicate n 0)) 0 (by
    intro j hj
    rw [Reverb.length_reverb, List.length_replicate] at hj
    exact key j hj)
  rw [Reverb.length_reverb, List.length_replicate] at h
  exact h

theorem applyChain_length (chain : List SoundEffect) (B : List Int) :
    (applyChain chain B).length = B.length := by
  unfold applyChain
  apply foldl_length_eq
  intro b e
  cases e
  · exact PitchShift.length_pitchShift b
  · exact Reverb.length_reverb b

/-- The memory written back by `audioCallback`: the block's samples after
`PitchShift` then `Reverb`, followed by whatever lies beyond the block. -/
theorem audioCallback_stream {F : Type} (D : DoubleOps F) (g : Globals F)
    (stream : List Int) (len : Nat) (start end_ : Int) :
    (audioCallback D g stream len start end_).2 =
      Reverb.applyEffect (PitchShift.applyEffect (stream.take (len / 2))) ++
        stream.drop (len / 2) := by
  by_cases h : len / 2 ≤ stream.length
  · simp [audioCallback, Reverb.length_reverb, PitchShift.length_pitchShift,
      List.length_take, Nat.min_eq_left h]
  · have h1 : stream.length ≤ len / 2 := by omega
    simp [audioCallback, Reverb.length_reverb, PitchShift.length_pitchShift,
      List.length_take, Nat.min_eq_right h1, List.drop_eq_nil_of_le h1]

theorem audioCallback_audioBufferIn {F : Type} (D : DoubleOps F) (g : Globals F)
    (stream : List Int) (len : Nat) (start end_ : Int) :
    (audioCallback D g stream len start end_).1.audioBufferIn =
      Reverb.applyEffect (PitchShift.applyEffect (stream.take (len / 2))) := by
  simp only [audioCallback]

theorem audioCallback_stores_millis {F : Type} (D : DoubleOps F) (g : Globals F)
    (stream : List Int) (len : Nat) (start end_ : Int) :
    (audioCallback D g stream len start end_).1.lastProcessTime =
      D.ofInt (durationCastMillis start end_) := by
  simp only [audioCallback]

/-! ## The claims -/

/-- C1: `Reverb::applyEffect` uses the delay `44100 / 10 = 4410`, and for every
buffer `B` in which no sum computed by the loop leaves the signed 16-bit range,
the result `R` has `R[i] = B[i]` for `i < min 4410 (len B)` and
`R[i] = B[i] + R[i - 4410] / 2` for `4410 ≤ i < len B`, the division truncating
toward zero and `R[i - 4410]` being the sample of the result (feedback). -/
theorem Reverb.applyEffect_recurrence (B : List Int)
    (hsum : ∀ i, 4410 ≤ i → i < B.length →
      isSint16 (B.getD i 0 + Int.tdiv ((Reverb.applyEffect B).getD (i - 4410) 0) 2)) :
    Reverb.delaySamples = 44100 / 10 ∧ Reverb.delaySamples = 4410 ∧
    (∀ i, i < min 4410 B.length → (Reverb.applyEffect B).getD i 0 = B.getD i 0) ∧
    (∀ i, 4410 ≤ i → i < B.length →
      (Reverb.applyEffect B).getD i 0 =
        B.getD i 0 + Int.tdiv ((Reverb.applyEffect B).getD (i - 4410) 0) 2) := by
  refine ⟨rfl, rfl, ?_, ?_⟩
  · intro i hi
    exact Reverb.getD_applyEffect_lt B i (by omega)
  · intro i h1 h2
    rw [Reverb.getD_applyEffect_ge B i h1 h2]
    exact toSint16_of_isSint16 _ (hsum i h1 h2)

theorem tdiv_two_bounds (x : Int) :
    x - 1 ≤ 2 * Int.tdiv x 2 ∧ 2 * Int.tdiv x 2 ≤ x + 1 := by
  cases x with
  | ofNat n =>
    have h : Int.tdiv (Int.ofNat n) 2 = ((n / 2 : Nat) : Int) := rfl
    rw [h]
    have : (Int.ofNat n) = (n : Int) := rfl
    rw [this]
    omega
  | negSucc n =>
    have h : Int.tdiv (Int.negSucc n) 2 = -(((n + 1) / 2 : Nat) : Int) := rfl
    rw [h]
    have : Int.negSucc n = -((n : Int) + 1) := Int.negSucc_eq n
    rw [this]
    omega

/-- Every sample of the result of `Reverb::applyEffect` is a `Sint16` when
every sample of the input is. -/
theorem Reverb.isSint16_getD (B : List Int) (hB : ∀ j, isSint16 (B.getD j 0)) (j : Nat) :
    isSint16 ((Reverb.applyEffect B).getD j 0) := by
  by_cases h : j < 4410
  · rw [Reverb.getD_applyEffect_lt B j h]
    exact hB j
  · by_cases h2 : j < B.length
    · rw [Reverb.getD_applyEffect_ge B j (by omega) h2]
      exact isSint16_toSint16 _
    · have h3 : (Reverb.applyEffect B).length ≤ j := by
        rw [Reverb.length_reverb]
        omega
      rw [List.getD_eq_default _ _ h3]
      decide

/-- The recurrence of C1 run on 8821 samples of value 4, where no sum overflows:
sample 0 stays 4, sample 4410 becomes `4 + 4 / 2 = 6` and sample 8820 becomes
`4 + 6 / 2 = 7`. -/
theorem Reverb.applyEffect_recurrence_witness :
    (∀ i, 4410 ≤ i → i < (List.replicate 8821 (4 : Int)).length →
      isSint16 ((List.replicate 8821 (4 : Int)).getD i 0 +
        Int.tdiv ((Reverb.applyEffect (List.replicate 8821 4)).getD (i - 4410) 0) 2)) ∧
    (Reverb.applyEffect (List.replicate 8821 4)).getD 0 0 = 4 ∧
    (Reverb.applyEffect (List.replicate 8821 4)).getD 4410 0 = 6 ∧
    (Reverb.applyEffect (List.replicate 8821 4)).getD 8820 0 = 7 := by
  have hB : ∀ j, isSint16 ((List.replicate 8821 (4 : Int)).getD j 0) := by
    intro j
    by_cases hj : j < 8821
    · rw [getD_replicate_lt 8821 j 4 hj]
      decide
    · rw [List.getD_eq_default _ _ (by rw [List.length_replicate]; omega)]
      decide
  have hyp : ∀ i, 4410 ≤ i → i < (List.replicate 8821 (4 : Int)).length →
      isSint16 ((List.replicate 8821 (4 : Int)).getD i 0 +
        Int.tdiv ((Reverb.applyEffect (List.replicate 8821 4)).getD (i - 4410) 0) 2) := by
    intro i _ h2
    have hr := Reverb.isSint16_getD (List.replicate 8821 4) hB (i - 4410)
    have ht := tdiv_two_bounds ((Reverb.applyEffect (List.replicate 8821 4)).getD (i - 4410) 0)
    rw [getD_replicate_lt 8821 i 4 (by rw [List.length_replicate] at h2; exact h2)]
    unfold isSint16 at *
    omega
  obtain ⟨_, _, hlt, hge⟩ := Reverb.applyEffect_recurrence (List.replicate 8821 4) hyp
  have h0 : (Reverb.applyEffect (List.replicate 8821 4)).getD 0 0 = 4 := by
    rw [hlt 0 (by rw [List.length_replicate]; omega), getD_replicate_lt 8821 0 4 (by omega)]
  have h1 : (Reverb.applyEffect (List.replicate 8821 4)).getD 4410 0 = 6 := by
    rw [hge 4410 (by omega) (by rw [List.length_replicate]; omega), Nat.sub_self, h0,
      getD_replicate_lt 8821 4410 4 (by omega)]
    decide
  have h2 : (Reverb.applyEffect (List.replicate 8821 4)).getD 8820 0 = 7 := by
    have e : 8820 - 4410 = 4410 := by omega
    rw [hge 8820 (by omega) (by rw [List.length_replicate]; omega), e, h1,
      getD_replicate_lt 8821 8820 4 (by omega)]
    decide
  exact ⟨hyp, h0, h1, h2⟩

/-- The feedback of `Reverb::applyEffect` is against the output: on the buffer
of 8821 samples of value 4, sample 8820 becomes `4 + 6 / 2 = 7`, where 6 is the
already updated sample 4410, and not `4 + 4 / 2 = 6`. -/
theorem Reverb.feedback_on_output :
    (Reverb.applyEffect (List.replicate 8821 4)).getD 8820 0 ≠
      (List.replicate 8821 (4 : Int)).getD 8820 0 +
        Int.tdiv ((List.replicate 8821 (4 : Int)).getD (8820 - 4410) 0) 2 := by
  have hv : (Reverb.applyEffect (List.replicate 8821 4)).getD 8820 0 = 7 := by
    have h0 : (Reverb.applyEffect (List.replicate 8821 4)).getD 0 0 = 4 := by
      rw [Reverb.getD_applyEffect_lt _ 0 (by omega), getD_replicate_lt 8821 0 4 (by omega)]
    have h1 : (Reverb.applyEffect (List.replicate 8821 4)).getD 4410 0 = 6 := by
      rw [Reverb.getD_applyEffect_ge _ 4410 (by omega) (by rw [List.length_replicate]; omega), Nat.sub_self, h0,
        getD_replicate_lt 8821 4410 4 (by omega)]
      decide
    have e : 8820 - 4410 = 4410 := by omega
    rw [Reverb.getD_applyEffect_ge _ 8820 (by omega) (by rw [List.length_replicate]; omega), e, h1,
      getD_replicate_lt 8821 8820 4 (by omega)]
    decide
  rw [hv, getD_replicate_lt 8821 8820 4 (by omega),
    getD_replicate_lt 8821 (8820 - 4410) 4 (by omega)]
  decide

/-- C9: `Reverb::applyEffect` does not clip. For every buffer `B` and every `i`
with `4410 ≤ i < len B` the stored sample `R[i]` is the 16-bit two's-complement
wraparound of `B[i] + R[i - 4410] / 2`: a `Sint16` congruent to that sum modulo
`2^16`. When `B[i] = 32767` and `R[i - 4410] = 2` it is `-32768`, not `32767`. -/
theorem Reverb.applyEffect_wraps (B : List Int) (i : Nat) (h1 : 4410 ≤ i)
    (h2 : i < B.length) :
    (Reverb.applyEffect B).getD i 0 =
      toSint16 (B.getD i 0 + Int.tdiv ((Reverb.applyEffect B).getD (i - 4410) 0) 2) ∧
    isSint16 ((Reverb.applyEffect B).getD i 0) ∧
    ((Reverb.applyEffect B).getD i 0 -
      (B.getD i 0 + Int.tdiv ((Reverb.applyEffect B).getD (i - 4410) 0) 2)) % 65536 = 0 ∧
    (B.getD i 0 = 32767 → (Reverb.applyEffect B).getD (i - 4410) 0 = 2 →
      (Reverb.applyEffect B).getD i 0 = -32768) := by
  have h := Reverb.getD_applyEffect_ge B i h1 h2
  refine ⟨h, ?_, ?_, ?_⟩
  · rw [h]
    exact isSint16_toSint16 _
  · rw [h]
    exact toSint16_sub_emod _
  · intro hb hr
    rw [h, hb, hr]
    decide

/-- The wraparound of C9 on 4410 samples of value 2 followed by 32767: the last
sample becomes `-32768`. -/
theorem Reverb.applyEffect_wraps_witness :
    4410 ≤ 4410 ∧ 4410 < (List.replicate 4410 (2 : Int) ++ [32767]).length ∧
    (Reverb.applyEffect (List.replicate 4410 2 ++ [32767])).getD 4410 0 = -32768 := by
  have hlen : 4410 < (List.replicate 4410 (2 : Int) ++ [32767]).length := by
    rw [List.length_append, List.length_replicate, List.length_singleton]
    omega
  have hb : (List.replicate 4410 (2 : Int) ++ [32767]).getD 4410 0 = 32767 := by
    rw [List.getD_append_right _ _ _ _ (by rw [List.length_replicate]),
      List.length_replicate, Nat.sub_self]
    rfl
  have hr : (Reverb.applyEffect (List.replicate 4410 2 ++ [32767])).getD (4410 - 4410) 0
      = 2 := by
    rw [Nat.sub_self, Reverb.getD_applyEffect_lt _ 0 (by omega),
      List.getD_append _ _ _ _ (by rw [List.length_replicate]; omega),
      getD_replicate_lt 4410 0 2 (by omega)]
  exact ⟨Nat.le_refl _, hlen,
    (Reverb.applyEffect_wraps (List.replicate 4410 2 ++ [32767]) 4410 (Nat.le_refl _)
      hlen).2.2.2 hb hr⟩

/-- C4: the two effects do not commute. On the buffer of 4411 samples of value
2, `PitchShift` then `Reverb` ends with the sample `2 + 2 / 2 = 3`, while
`Reverb` then `PitchShift` ends with the sample 2. -/
theorem effects_do_not_commute :
    ∃ B : List Int, (∀ x ∈ B, isSint16 x) ∧
      applyChain [SoundEffect.pitchShift, SoundEffect.reverb] B ≠
        applyChain [SoundEffect.reverb, SoundEffect.pitchShift] B ∧
      Reverb.applyEffect (PitchShift.applyEffect B) ≠
        PitchShift.applyEffect (Reverb.applyEffect B) := by
  have hne : Reverb.applyEffect (PitchShift.applyEffect (List.replicate 4411 2)) ≠
      PitchShift.applyEffect (Reverb.applyEffect (List.replicate 4411 2)) := by
    intro heq
    have hps : PitchShift.applyEffect (List.replicate 4411 2) = List.replicate 4411 2 := by
      rw [PitchShift.applyEffect_eq_replicate, List.length_replicate,
        getD_replicate_lt 4411 0 2 (by omega)]
    have hl : (Reverb.applyEffect (List.replicate 4411 2)).getD 4410 0 = 3 := by
      rw [Reverb.getD_applyEffect_ge _ 4410 (by omega) (by rw [List.length_replicate]; omega),
        Nat.sub_self, Reverb.getD_applyEffect_lt _ 0 (by omega),
        getD_replicate_lt 4411 0 2 (by omega), getD_replicate_lt 4411 4410 2 (by omega)]
      decide
    have hr : (PitchShift.applyEffect (Reverb.applyEffect (List.replicate 4411 2))).getD
        4410 0 = 2 := by
      rw [PitchShift.getD_applyEffect _ 4410
          (by rw [Reverb.length_reverb, List.length_replicate]; omega),
        Reverb.getD_applyEffect_lt _ 0 (by omega), getD_replicate_lt 4411 0 2 (by omega)]
    rw [hps] at heq
    rw [← heq, hl] at hr
    exact absurd hr (by decide)
  have hchain : ∀ B : List Int,
      applyChain [SoundEffect.pitchShift, SoundEffect.reverb] B =
        Reverb.applyEffect (PitchShift.applyEffect B) ∧
      applyChain [SoundEffect.reverb, SoundEffect.pitchShift] B =
        PitchShift.applyEffect (Reverb.applyEffect B) := by
    intro B
    simp only [applyChain, List.foldl_cons, List.foldl_nil, SoundEffect.applyEffect,
      and_self]
  refine ⟨List.replicate 4411 2, ?_, ?_, hne⟩
  · intro x hx
    rw [List.eq_of_mem_replicate hx]
    decide
  · rw [(hchain _).1, (hchain _).2]
    exact hne

/-- C3: the effects never change the buffer length. `PitchShift::applyEffect`,
`Reverb::applyEffect` and every finite sequence of the two return a buffer of
the length of their argument, whatever that length is (0 and lengths below 4410
included); `audioCallback` leaves the stream's extent unchanged and leaves
`audioBufferIn` with the `len / 2` samples of the block. -/
theorem effects_preserve_length :
    (∀ B : List Int, (PitchShift.applyEffect B).length = B.length) ∧
    (∀ B : List Int, (Reverb.applyEffect B).length = B.length) ∧
    (∀ (chain : List SoundEffect) (B : List Int), (applyChain chain B).length = B.length) ∧
    (∀ B : List Int,
      (Reverb.applyEffect (PitchShift.applyEffect B)).length = B.length) ∧
    PitchShift.applyEffect [] = [] ∧ Reverb.applyEffect [] = [] ∧
    (∀ (F : Type) (D : DoubleOps F) (g : Globals F) (stream : List Int) (len : Nat)
      (start end_ : Int),
      (audioCallback D g stream len start end_).2.length = stream.length ∧
      (audioCallback D g stream len start end_).1.audioBufferIn.length =
        min (len / 2) stream.length) := by
  refine ⟨PitchShift.length_pitchShift, Reverb.length_reverb, applyChain_length,
    ?_, ?_, ?_, ?_⟩
  · intro B
    rw [Reverb.length_reverb, PitchShift.length_pitchShift]
  · exact List.length_eq_zero.mp (PitchShift.length_pitchShift [])
  · exact List.length_eq_zero.mp (Reverb.length_reverb [])
  · intro F D g stream len start end_
    constructor
    · rw [audioCallback_stream, List.length_append, Reverb.length_reverb,
        PitchShift.length_pitchShift, List.length_take, List.length_drop]
      omega
    · rw [audioCallback_audioBufferIn, Reverb.length_reverb,
        PitchShift.length_pitchShift, List.length_take]

/-- C5: the chain is zero-preserving. On a stream of `n` zero samples, for any
`n` and any byte length `len`, `audioCallback` (PitchShift then Reverb) writes
back `n` zero samples and leaves only zeros in `audioBufferIn`; so it does on
the block of 4096 stereo frames, 8192 samples in 16384 bytes. -/
theorem audioCallback_zero_preserving {F : Type} (D : DoubleOps F) (g : Globals F)
    (n len : Nat) (start end_ : Int) :
    Reverb.applyEffect (PitchShift.applyEffect (List.replicate n 0)) = List.replicate n 0 ∧
    (audioCallback D g (List.replicate n 0) len start end_).2 = List.replicate n 0 ∧
    (∀ x ∈ (audioCallback D g (List.replicate n 0) len start end_).1.audioBufferIn, x = 0) ∧
    (audioCallback D g (List.replicate (BUFFER_SIZE * AUDIO_CHANNELS) 0)
      (BUFFER_SIZE * AUDIO_CHANNELS * 2) start end_).2 = List.replicate 8192 0 := by
  have hps : ∀ m : Nat, PitchShift.applyEffect (List.replicate m 0) = List.replicate m 0 := by
    intro m
    rw [PitchShift.applyEffect_eq_replicate, List.length_replicate]
    by_cases hm : 0 < m
    · rw [getD_replicate_lt m 0 0 hm]
    · have : m = 0 := by omega
      subst this
      rfl
  have hchain : ∀ m : Nat,
      Reverb.applyEffect (PitchShift.applyEffect (List.replicate m 0)) = List.replicate m 0 := by
    intro m
    rw [hps m, Reverb.applyEffect_replicate_zero]
  have hstream : ∀ m l : Nat,
      (audioCallback D g (List.replicate m 0) l start end_).2 = List.replicate m 0 := by
    intro m l
    rw [audioCallback_stream, List.take_replicate, hchain, List.drop_replicate,
      List.append_replicate_replicate]
    congr 1
    omega
  refine ⟨hchain n, hstream n len, ?_, hstream _ _⟩
  intro x hx
  rw [audioCallback_audioBufferIn, List.take_replicate, hchain] at hx
  exact List.eq_of_mem_replicate hx

/-- C10: `PitchShift::applyEffect` fills the buffer with its first sample: for
every non-empty buffer `B` and every `i < len B` the sample at `i` after the
call is `B[0]`. Hence the block written back by `audioCallback` is determined
by the block's first sample and its length: it is `Reverb` applied to that many
copies of the first sample, and two blocks of the same length with the same
first sample give the same output block. -/
theorem PitchShift.applyEffect_flood_fill :
    (∀ (B : List Int) (i : Nat), B ≠ [] → i < B.length →
      (PitchShift.applyEffect B).getD i 0 = B.getD 0 0) ∧
    (∀ B : List Int, PitchShift.applyEffect B = List.replicate B.length (B.getD 0 0)) ∧
    (∀ (F : Type) (D : DoubleOps F) (g : Globals F) (stream : List Int) (len : Nat)
      (start end_ : Int),
      (audioCallback D g stream len start end_).1.audioBufferIn =
        Reverb.applyEffect
          (List.replicate (stream.take (len / 2)).length ((stream.take (len / 2)).getD 0 0))) ∧
    (∀ (F : Type) (D : DoubleOps F) (g g' : Globals F) (block block' : List Int)
      (start end_ start' end_' : Int),
      block.length = block'.length → block.getD 0 0 = block'.getD 0 0 →
      (audioCallback D g block (2 * block.length) start end_).2 =
        (audioCallback D g' block' (2 * block'.length) start' end_').2) := by
  refine ⟨fun B i _ hi => PitchShift.getD_applyEffect B i hi,
    PitchShift.applyEffect_eq_replicate, ?_, ?_⟩
  · intro F D g stream len start end_
    rw [audioCallback_audioBufferIn, PitchShift.applyEffect_eq_replicate]
  · intro F D g g' block block' start end_ start' end_' hlen hhead
    have h1 : 2 * block.length / 2 = block.length := by omega
    have h2 : 2 * block'.length / 2 = block'.length := by omega
    rw [audioCallback_stream, audioCallback_stream, h1, h2, List.take_length,
      List.take_length, List.drop_length, List.drop_length,
      PitchShift.applyEffect_eq_replicate, PitchShift.applyEffect_eq_replicate, hlen, hhead]

/-- The flood fill of C10 on `[5, 6, 7, 8]`, and two 8-byte blocks with the same
first sample that `audioCallback` maps to the same output. -/
theorem PitchShift.applyEffect_flood_fill_witness :
    ([5, 6, 7, 8] : List Int) ≠ [] ∧ 3 < ([5, 6, 7, 8] : List Int).length ∧
    (PitchShift.applyEffect [5, 6, 7, 8]).getD 3 0 = 5 ∧
    (audioCallback exactOps (initialGlobals exactOps 0) [5, 6, 7, 8] 8 0 0).2 =
      (audioCallback exactOps (initialGlobals exactOps 0) [5, -1, -2, -3] 8 0 0).2 :=
  ⟨by decide, by decide,
    PitchShift.applyEffect_flood_fill.1 [5, 6, 7, 8] 3 (by decide) (by decide),
    PitchShift.applyEffect_flood_fill.2.2.2 ℚ exactOps (initialGlobals exactOps 0)
      (initialGlobals exactOps 0) [5, 6, 7, 8] [5, -1, -2, -3] 0 0 0 0 rfl rfl⟩

/-- C2 (evaluation of the code): on `[1, 2, 3, 4]` `PitchShift::applyEffect`
returns `[1, 1, 1, 1]`, not the duplication `[1, 1, 2, 2]` of the input samples:
the sample at index 2 is not the sample the input held at index `2 / 2`. -/
theorem PitchShift.applyEffect_not_duplicating :
    PitchShift.applyEffect [1, 2, 3, 4] = [1, 1, 1, 1] ∧
    PitchShift.applyEffect [1, 2, 3, 4] ≠ [1, 1, 2, 2] ∧
    (PitchShift.applyEffect [1, 2, 3, 4]).getD 2 0 ≠ ([1, 2, 3, 4] : List Int).getD (2 / 2) 0 := by
  decide

/-- C7 (counterexample): a pass of 1.5 ms (1500000 ns) is recorded as 1, not as
1.5, and a pass of 0.4 ms (400000 ns) as 0, not as 0.4. -/
theorem audioCallback_lastProcessTime_truncated :
    (audioCallback exactOps (initialGlobals exactOps 0) [] 0 0 1500000).1.lastProcessTime = 1 ∧
    (audioCallback exactOps (initialGlobals exactOps 0) [] 0 0 1500000).1.lastProcessTime ≠
      ((1500000 - 0 : Int) : ℚ) / 1000000 ∧
    (audioCallback exactOps (initialGlobals exactOps 0) [] 0 0 400000).1.lastProcessTime = 0 ∧
    (audioCallback exactOps (initialGlobals exactOps 0) [] 0 0 400000).1.lastProcessTime ≠
      ((400000 - 0 : Int) : ℚ) / 1000000 := by
  have e1 : durationCastMillis 0 1500000 = 1 := by decide
  have e2 : durationCastMillis 0 400000 = 0 := by decide
  rw [audioCallback_stores_millis, audioCallback_stores_millis, e1, e2]
  simp only [exactOps]
  norm_num

/-- C7 (amended): for clock readings `start ≤ end_` in nanoseconds, the value
`audioCallback` stores in `lastProcessTime` is the conversion to `double` of the
whole number `ms` of milliseconds contained in `end_ - start`, the fraction of a
millisecond being dropped: `ms * 10^6 ≤ end_ - start < (ms + 1) * 10^6`. -/
theorem audioCallback_lastProcessTime_whole_millis {F : Type} (D : DoubleOps F)
    (g : Globals F) (stream : List Int) (len : Nat) (start end_ : Int)
    (hle : start ≤ end_) :
    (audioCallback D g stream len start end_).1.lastProcessTime =
      D.ofInt ((end_ - start) / 1000000) ∧
    0 ≤ (end_ - start) / 1000000 ∧
    (end_ - start) / 1000000 * 1000000 ≤ end_ - start ∧
    end_ - start < ((end_ - start) / 1000000 + 1) * 1000000 := by
  have h : durationCastMillis start end_ = (end_ - start) / 1000000 := by
    unfold durationCastMillis
    exact Int.tdiv_eq_ediv (by omega) (by omega)
  rw [audioCallback_stores_millis, h]
  refine ⟨rfl, ?_, ?_, ?_⟩ <;> omega

/-- The amended C7 on a pass of 1500000 ns. -/
theorem audioCallback_lastProcessTime_whole_millis_witness :
    (0 : Int) ≤ 1500000 ∧
    (audioCallback exactOps (initialGlobals exactOps 0) [] 0 0 1500000).1.lastProcessTime =
      exactOps.ofInt ((1500000 - 0) / 1000000) :=
  ⟨by decide,
    (audioCallback_lastProcessTime_whole_millis exactOps (initialGlobals exactOps 0) [] 0
      0 1500000 (by decide)).1⟩

/-- C8: `calculateFPS` as a step on the globals, `now` being its clock reading
and `frameCount` being below `INT_MAX`, where the increment is defined. With
`elapsed` the `double` number of seconds in `now - lastFrameTime`:
if `elapsed >= 1.0` then `fps` becomes `(frameCount + 1) / elapsed`,
`frameCount` becomes 0, `lastFrameTime` becomes `now` and one line with the new
`fps` and `lastProcessTime` is printed; otherwise `frameCount` becomes
`frameCount + 1`, nothing else changes and nothing is printed. -/
theorem calculateFPS_step {F : Type} (D : DoubleOps F) (g : Globals F) (now : Int)
    (hrange : g.frameCount < INT_MAX) :
    (D.ge (D.secondsOfNanos (now - g.lastFrameTime)) D.one = true →
      calculateFPS D g now = some
        ({ g with
            fps := D.div (D.ofInt (g.frameCount + 1))
              (D.secondsOfNanos (now - g.lastFrameTime))
            frameCount := 0
            lastFrameTime := now },
         [{ fps := D.div (D.ofInt (g.frameCount + 1))
              (D.secondsOfNanos (now - g.lastFrameTime))
            lastProcessTime := g.lastProcessTime }])) ∧
    (D.ge (D.secondsOfNanos (now - g.lastFrameTime)) D.one = false →
      calculateFPS D g now = some ({ g with frameCount := g.frameCount + 1 }, [])) := by
  constructor
  · intro h
    simp only [calculateFPS, if_pos hrange, h, if_true]
  · intro h
    simp [calculateFPS, if_pos hrange, h]

/-- Both branches of C8 from the initial globals, in exact arithmetic: after 2 s
the rate is `1 / 2` and the counter is reset; after 0.999999999 s only the
counter moves. -/
theorem calculateFPS_step_witness :
    ((initialGlobals exactOps 0).frameCount < INT_MAX ∧
      exactOps.ge (exactOps.secondsOfNanos (2000000000 - 0)) exactOps.one = true ∧
      (calculateFPS exactOps (initialGlobals exactOps 0) 2000000000).map
          (fun r => (r.1.frameCount, r.1.lastFrameTime, r.1.fps, r.2.length)) =
        some (0, 2000000000, 1 / 2, 1)) ∧
    ((initialGlobals exactOps 0).frameCount < INT_MAX ∧
      exactOps.ge (exactOps.secondsOfNanos (999999999 - 0)) exactOps.one = false ∧
      (calculateFPS exactOps (initialGlobals exactOps 0) 999999999).map
          (fun r => (r.1.frameCount, r.1.lastFrameTime, r.1.fps, r.2.length)) =
        some (1, 0, 0, 0)) := by
  have hr : (initialGlobals exactOps 0).frameCount < INT_MAX := by decide
  have h1 : exactOps.ge (exactOps.secondsOfNanos (2000000000 - 0)) exactOps.one = true := by
    simp only [exactOps]
    norm_num
  have h2 : exactOps.ge (exactOps.secondsOfNanos (999999999 - 0)) exactOps.one = false := by
    simp only [exactOps]
    norm_num
  refine ⟨⟨hr, h1, ?_⟩, ⟨hr, h2, ?_⟩⟩
  · have h := (calculateFPS_step exactOps (initialGlobals exactOps 0) 2000000000 hr).1
    simp only [initialGlobals] at h
    rw [initialGlobals, h h1]
    simp only [Option.map_some', exactOps, List.length_singleton]
    norm_num
  · have h := (calculateFPS_step exactOps (initialGlobals exactOps 0) 999999999 hr).2
    simp only [initialGlobals] at h
    rw [initialGlobals, h h2]
    simp only [Option.map_some', exactOps, List.length_nil]
    norm_num

end AudioEffect
